import Mathlib

/-!
Verification of an expense-tracker backend and dashboard client.

The backend stores expense rows in a single SQLite table and exposes five
operations: list categories, create, list by date range, summarize by
category, and delete by id.  The client calls these over HTTP and renders
the results.  We embed the row type, the table state, and each operation as
executable Lean definitions translated from the source, with SQLite REAL
modelled as the rationals and SQLite TEXT comparison as the lexicographic
order on strings (for the date strings involved, lexicographic comparison
of code points agrees with the byte-wise comparison SQLite performs).
-/

/-- Computable comparison for the order on String: decided through the
lexicographic order on the underlying character lists. -/
instance (priority := 2000) strDecLT : DecidableRel (fun a b : String => a < b) := fun a b =>
  decidable_of_iff (a.toList < b.toList) String.lt_iff_toList_lt.symm

/-- Computable comparison for the reflexive order on String, likewise through
the character lists. -/
instance (priority := 2000) strDecLE : DecidableRel (fun a b : String => a ≤ b) := fun a b =>
  decidable_of_iff (a.toList ≤ b.toList) String.le_iff_toList_le.symm

/-- One row of the expenses table: id INTEGER PRIMARY KEY AUTOINCREMENT,
date TEXT, amount REAL, category TEXT, subcategory TEXT, note TEXT. -/
structure Expense where
  id : Nat
  date : String
  amount : ℚ
  category : String
  subcategory : String
  note : String
deriving DecidableEq, Repr

/-- The request body of the create endpoint (pydantic model ExpenseCreate):
all fields of a row except the storage-assigned id. -/
structure ExpenseCreate where
  date : String
  amount : ℚ
  category : String
  subcategory : String
  note : String
deriving DecidableEq, Repr

/-- Database state: the stored rows together with the AUTOINCREMENT counter.
SQLite assigns each inserted row the current counter value and bumps it, so
ids are never reused within a process lifetime. -/
structure DB where
  nextId : Nat
  rows : List Expense
deriving Repr

/-- The hard-coded category list DEFAULT_CATEGORIES from the backend. -/
def DEFAULT_CATEGORIES : List String :=
  ["Food", "Transportation", "Utilities", "Personal Care", "Entertainment", "Health", "Other"]

/-- GET /categories: returns the static category list. -/
def get_categories : List String := DEFAULT_CATEGORIES

/-- The SQL condition "date BETWEEN start AND end": inclusive range under
lexicographic string comparison. -/
def inRange (s e d : String) : Bool := decide (s ≤ d) && decide (d ≤ e)

/-- The ORDER BY key of list_expenses: date DESC, id DESC.  Row a precedes
row b when a has the later date, or the same date and the larger id. -/
def listLE (a b : Expense) : Prop :=
  b.date < a.date ∨ (a.date = b.date ∧ b.id ≤ a.id)

instance : DecidableRel listLE := fun a b => by
  unfold listLE
  exact instDecidableOr

instance : IsTotal Expense listLE where
  total a b := by
    unfold listLE
    rcases lt_trichotomy a.date b.date with h | h | h
    · exact Or.inr (Or.inl h)
    · rcases le_total a.id b.id with h2 | h2
      · exact Or.inr (Or.inr ⟨h.symm, h2⟩)
      · exact Or.inl (Or.inr ⟨h, h2⟩)
    · exact Or.inl (Or.inl h)

instance : IsTrans Expense listLE where
  trans a b c hab hbc := by
    unfold listLE at *
    rcases hab with h1 | ⟨h1, h1'⟩ <;> rcases hbc with h2 | ⟨h2, h2'⟩
    · exact Or.inl (h2.trans h1)
    · exact Or.inl (h2 ▸ h1)
    · exact Or.inl (h1 ▸ h2)
    · exact Or.inr ⟨h1.trans h2, le_trans h2' h1'⟩

/-- GET /expenses/ (list_expenses): SELECT rows whose date lies in the
inclusive range, ORDER BY date DESC, id DESC. -/
def list_expenses (rows : List Expense) (start_date end_date : String) : List Expense :=
  List.insertionSort listLE (rows.filter (fun r => inRange start_date end_date r.date))

/-- A row of the summary response: a category and its total amount. -/
structure SummaryEntry where
  category : String
  total : ℚ
deriving DecidableEq, Repr

/-- The SUM(amount) aggregate over the rows of one category. -/
def catTotal (rows : List Expense) (c : String) : ℚ :=
  ((rows.filter (fun r => decide (r.category = c))).map (·.amount)).sum

/-- The ORDER BY key of get_summary: total DESC. -/
def totLE (a b : SummaryEntry) : Prop := b.total ≤ a.total

instance : DecidableRel totLE := fun a b => by
  unfold totLE; infer_instance

instance : IsTotal SummaryEntry totLE where
  total a b := le_total b.total a.total

instance : IsTrans SummaryEntry totLE where
  trans _ _ _ hab hbc := le_trans hbc hab

/-- GET /summary/ (get_summary): SELECT category, SUM(amount) over the rows
in the date range, GROUP BY category, ORDER BY total DESC. -/
def get_summary (rows : List Expense) (start_date end_date : String) : List SummaryEntry :=
  let filtered := rows.filter (fun r => inRange start_date end_date r.date)
  let cats := (filtered.map (·.category)).dedup
  List.insertionSort totLE (cats.map (fun c => ⟨c, catTotal filtered c⟩))

/-- DELETE /expenses/(id) (delete_expense): DELETE FROM expenses WHERE
id = eid, then 404 when the statement touched no row, success otherwise.
Returns the new table on success and none for the 404 case (in which the
table is unchanged, since no row matched). -/
def delete_expense (rows : List Expense) (eid : Nat) : Option (List Expense) :=
  let newRows := rows.filter (fun r => decide (r.id ≠ eid))
  let rowcount := rows.length - newRows.length
  if rowcount = 0 then none else some newRows

/-- POST /expenses/ (add_expense): INSERT one row with the submitted fields,
the id assigned by AUTOINCREMENT; returns the created record and new state.
No field-level validation of amount sign, date format or category. -/
def add_expense (db : DB) (e : ExpenseCreate) : Expense × DB :=
  let row : Expense := ⟨db.nextId, e.date, e.amount, e.category, e.subcategory, e.note⟩
  (row, ⟨db.nextId + 1, db.rows ++ [row]⟩)

/-- A sequence of create calls; returns the assigned ids in order and the
final state. -/
def createMany (db : DB) (inputs : List ExpenseCreate) : List Nat × DB :=
  match inputs with
  | [] => ([], db)
  | i :: rest =>
    let p := add_expense db i
    let q := createMany p.2 rest
    (p.1.id :: q.1, q.2)

/-- Outcome of the submit handler of the entry form in the dashboard client:
either a create request with the collected payload is sent, or a warning is
shown and nothing is sent. -/
inductive SubmitAction where
  | submit (data : ExpenseCreate)
  | warn
deriving DecidableEq, Repr

/-- The submit handler of the entry form (frontend): when the amount is
strictly positive it builds the payload and calls the create endpoint,
otherwise it shows the warning "Amount must be greater than 0." and sends
nothing. -/
def entry_form_submit (entry_date : String) (amount : ℚ)
    (category subcategory note : String) : SubmitAction :=
  if 0 < amount then .submit ⟨entry_date, amount, category, subcategory, note⟩ else .warn

/-- Outcome of one HTTP request made by a client helper: either the request
itself fails with a connection exception, or a response arrives with a status
code and a parsed body. -/
inductive NetResult (α : Type) where
  | exn
  | resp (status : Nat) (body : α)
deriving DecidableEq, Repr

/-- Client helper get_categories (frontend): the only helper wrapped in
try/except.  Returns the parsed body on HTTP 200 and the placeholder list
otherwise; on a connection exception it shows an error message (the Bool
component records whether one was shown) and returns the placeholder. -/
def get_categories_client : NetResult (List String) → List String × Bool
  | .exn => (["Others"], true)
  | .resp s b => if s = 200 then (b, false) else (["Others"], false)

/-- Client helper add_expense_api: no try/except, so a connection exception
escapes the helper (modelled as Except.error); a response reports whether the
status was 200. -/
def add_expense_api : NetResult Unit → Except Unit Bool
  | .exn => .error ()
  | .resp s _ => .ok (decide (s = 200))

/-- Client helper get_expenses_api: no try/except; a response yields the body
on status 200 and the empty list otherwise. -/
def get_expenses_api : NetResult (List Expense) → Except Unit (List Expense)
  | .exn => .error ()
  | .resp s b => .ok (if s = 200 then b else [])

/-- Client helper get_summary_api: no try/except; a response yields the body
on status 200 and the empty list otherwise. -/
def get_summary_api : NetResult (List SummaryEntry) → Except Unit (List SummaryEntry)
  | .exn => .error ()
  | .resp s b => .ok (if s = 200 then b else [])

/-- Client helper delete_expense_api: no try/except; a response reports
whether the status was 200. -/
def delete_expense_api : NetResult Unit → Except Unit Bool
  | .exn => .error ()
  | .resp s _ => .ok (decide (s = 200))

/-- A concrete row used to instantiate the theorems below. -/
def sampleRow : Expense := ⟨1, "2024-05-01", 10, "Food", "", ""⟩

/-- A concrete empty database with AUTOINCREMENT counter 1. -/
def sampleDB : DB := ⟨1, []⟩

/-- A concrete create request. -/
def sampleInput : ExpenseCreate := ⟨"2024-05-01", 10, "Food", "", ""⟩

/-- A concrete create request with amount zero. -/
def sampleZero : ExpenseCreate := ⟨"2024-05-01", 0, "Food", "", ""⟩


/-! ### Support lemmas -/

theorem inRange_iff {s e d : String} : inRange s e d = true ↔ s ≤ d ∧ d ≤ e := by
  simp [inRange]

theorem mem_list_expenses {rows : List Expense} {s e : String} {r : Expense} :
    r ∈ list_expenses rows s e ↔ r ∈ rows ∧ s ≤ r.date ∧ r.date ≤ e := by
  rw [list_expenses, List.mem_insertionSort, List.mem_filter, inRange_iff]

theorem list_expenses_perm (rows : List Expense) (s e : String) :
    (list_expenses rows s e).Perm (rows.filter (fun r => inRange s e r.date)) :=
  List.perm_insertionSort listLE _

theorem list_expenses_sorted (rows : List Expense) (s e : String) :
    List.Sorted listLE (list_expenses rows s e) :=
  List.sorted_insertionSort listLE _

theorem mem_get_summary {rows : List Expense} {s e c : String} {t : ℚ} :
    SummaryEntry.mk c t ∈ get_summary rows s e ↔
      ((∃ r, r ∈ rows ∧ (s ≤ r.date ∧ r.date ≤ e) ∧ r.category = c) ∧
        t = catTotal (rows.filter (fun r => inRange s e r.date)) c) := by
  simp only [get_summary, List.mem_insertionSort, List.mem_map, List.mem_dedup,
    SummaryEntry.mk.injEq, List.mem_filter, inRange_iff]
  constructor
  · rintro ⟨a, ⟨r, ⟨hr, hd⟩, hcat⟩, rfl, rfl⟩
    exact ⟨⟨r, hr, hd, hcat⟩, rfl⟩
  · rintro ⟨⟨r, hr, hd, hcat⟩, rfl⟩
    exact ⟨c, ⟨r, ⟨hr, hd⟩, hcat⟩, rfl, rfl⟩

theorem get_summary_categories_nodup (rows : List Expense) (s e : String) :
    ((get_summary rows s e).map (·.category)).Nodup := by
  have hperm :=
    (List.perm_insertionSort totLE
      ((((rows.filter (fun r => inRange s e r.date)).map (·.category)).dedup).map
        (fun c => SummaryEntry.mk c (catTotal (rows.filter (fun r => inRange s e r.date)) c)))).map
      (·.category)
  refine hperm.nodup_iff.mpr ?_
  rw [List.map_map]
  have hid : ((fun x : SummaryEntry => x.category) ∘ fun c =>
      SummaryEntry.mk c (catTotal (rows.filter (fun r => inRange s e r.date)) c)) = id := rfl
  rw [hid, List.map_id]
  exact List.nodup_dedup _

theorem get_summary_sorted (rows : List Expense) (s e : String) :
    List.Sorted totLE (get_summary rows s e) :=
  List.sorted_insertionSort totLE _

theorem get_summary_eq (rows : List Expense) (s e : String) :
    get_summary rows s e =
      List.insertionSort totLE
        ((((rows.filter (fun r => inRange s e r.date)).map (·.category)).dedup).map
          (fun c => SummaryEntry.mk c (catTotal (rows.filter (fun r => inRange s e r.date)) c))) :=
  rfl

theorem catTotal_cons (x : Expense) (l : List Expense) (c : String) :
    catTotal (x :: l) c = (if x.category = c then x.amount else 0) + catTotal l c := by
  by_cases h : x.category = c <;> simp [catTotal, List.filter_cons, h]

theorem sum_map_add_q {α : Type} (f g : α → ℚ) (l : List α) :
    (l.map (fun x => f x + g x)).sum = (l.map f).sum + (l.map g).sum := by
  induction l with
  | nil => simp
  | cons a l ih => simp only [List.map_cons, List.sum_cons, ih]; ring

theorem sum_ite_not_mem {c0 : String} {cats : List String} (h : c0 ∉ cats) (a : ℚ) :
    (cats.map (fun c => if c0 = c then a else 0)).sum = 0 := by
  induction cats with
  | nil => simp
  | cons b cats ih =>
    simp only [List.mem_cons, not_or] at h
    simp [h.1, ih h.2]

theorem sum_ite_single {c0 : String} {cats : List String} (hnd : cats.Nodup) (hmem : c0 ∈ cats)
    (a : ℚ) : (cats.map (fun c => if c0 = c then a else 0)).sum = a := by
  induction cats with
  | nil => cases hmem
  | cons b cats ih =>
    rcases List.nodup_cons.mp hnd with ⟨hb, hnd'⟩
    rcases List.mem_cons.mp hmem with rfl | hm
    · simp [sum_ite_not_mem hb a]
    · have hne : c0 ≠ b := fun hEq => hb (hEq ▸ hm)
      simp only [List.map_cons, List.sum_cons, if_neg hne, ih hnd' hm, zero_add]

theorem sum_catTotal_eq (cats : List String) (l : List Expense) (hnd : cats.Nodup)
    (hc : ∀ r ∈ l, r.category ∈ cats) :
    (cats.map (fun c => catTotal l c)).sum = (l.map (·.amount)).sum := by
  induction l with
  | nil => simp [catTotal]
  | cons x l ih =>
    have h1 : ∀ r ∈ l, r.category ∈ cats := fun r hr => hc r (List.mem_cons_of_mem _ hr)
    simp only [catTotal_cons, sum_map_add_q, List.map_cons, List.sum_cons]
    rw [sum_ite_single hnd (hc x (List.mem_cons_self _ _)) x.amount, ih h1]

theorem delete_expense_eq_none_iff {rows : List Expense} {eid : Nat} :
    delete_expense rows eid = none ↔ ∀ r ∈ rows, r.id ≠ eid := by
  have hle := List.length_filter_le (fun r => decide (r.id ≠ eid)) rows
  simp only [delete_expense]
  by_cases h : rows.length - (rows.filter (fun r => decide (r.id ≠ eid))).length = 0
  · rw [if_pos h]
    simp only [true_iff]
    have hlen : (rows.filter (fun r => decide (r.id ≠ eid))).length = rows.length :=
      le_antisymm hle (Nat.sub_eq_zero_iff_le.mp h)
    have hall := List.filter_length_eq_length.mp hlen
    intro r hr
    simpa using hall r hr
  · rw [if_neg h]
    apply iff_of_false (by simp)
    intro hall
    exact h (Nat.sub_eq_zero_iff_le.mpr (le_of_eq
      (List.filter_length_eq_length.mpr (fun r hr => by simpa using hall r hr)).symm))

theorem delete_expense_isSome_iff {rows : List Expense} {eid : Nat} :
    (delete_expense rows eid).isSome = true ↔ ∃ r, r ∈ rows ∧ r.id = eid := by
  rw [Option.isSome_iff_ne_none, ne_eq, delete_expense_eq_none_iff]
  push_neg
  simp only [exists_prop]

theorem delete_expense_some_eq {rows rows' : List Expense} {eid : Nat}
    (h : delete_expense rows eid = some rows') :
    rows' = rows.filter (fun r => decide (r.id ≠ eid)) := by
  simp only [delete_expense] at h
  split at h
  · cases h
  · exact (Option.some_inj.mp h).symm

theorem length_filter_id_eq_one {rows : List Expense} {eid : Nat}
    (hnd : (rows.map (·.id)).Nodup) (hex : ∃ r, r ∈ rows ∧ r.id = eid) :
    (rows.filter (fun r => decide (r.id = eid))).length = 1 := by
  induction rows with
  | nil => rcases hex with ⟨r, hr, _⟩; cases hr
  | cons x l ih =>
    rw [List.map_cons, List.nodup_cons] at hnd
    obtain ⟨hx, hnd'⟩ := hnd
    by_cases hxid : x.id = eid
    · rw [List.filter_cons_of_pos (by simpa using hxid)]
      have hnil : l.filter (fun r => decide (r.id = eid)) = [] := by
        apply List.filter_eq_nil_iff.mpr
        intro r hr
        simp only [decide_eq_true_eq]
        intro hre
        exact hx (List.mem_map.mpr ⟨r, hr, by rw [hre, hxid]⟩)
      simp [hnil]
    · rw [List.filter_cons_of_neg (by simpa using hxid)]
      apply ih hnd'
      rcases hex with ⟨r, hr, hrid⟩
      rcases List.mem_cons.mp hr with rfl | hm
      · exact absurd hrid hxid
      · exact ⟨r, hm, hrid⟩

theorem add_expense_id (db : DB) (i : ExpenseCreate) : (add_expense db i).1.id = db.nextId :=
  rfl

theorem add_expense_nextId (db : DB) (i : ExpenseCreate) :
    (add_expense db i).2.nextId = db.nextId + 1 :=
  rfl

theorem add_expense_rows (db : DB) (i : ExpenseCreate) :
    (add_expense db i).2.rows = db.rows ++ [(add_expense db i).1] :=
  rfl

theorem createMany_cons (db : DB) (x : ExpenseCreate) (rest : List ExpenseCreate) :
    createMany db (x :: rest)
      = ((add_expense db x).1.id :: (createMany (add_expense db x).2 rest).1,
         (createMany (add_expense db x).2 rest).2) :=
  rfl

theorem createMany_ids_lb (db : DB) (inputs : List ExpenseCreate) :
    ∀ i ∈ (createMany db inputs).1, db.nextId ≤ i := by
  induction inputs generalizing db with
  | nil => intro i hi; cases hi
  | cons x rest ih =>
    intro i hi
    rw [createMany_cons] at hi
    rcases List.mem_cons.mp hi with rfl | hm
    · exact le_of_eq (add_expense_id db x).symm
    · have := ih (add_expense db x).2 i hm
      rw [add_expense_nextId] at this
      omega

theorem createMany_pairwise (db : DB) (inputs : List ExpenseCreate) :
    ((createMany db inputs).1).Pairwise (· < ·) := by
  induction inputs generalizing db with
  | nil => exact List.Pairwise.nil
  | cons x rest ih =>
    rw [createMany_cons]
    refine List.Pairwise.cons ?_ (ih _)
    intro i hi
    have := createMany_ids_lb (add_expense db x).2 rest i hi
    rw [add_expense_nextId] at this
    rw [add_expense_id]
    omega

theorem createMany_rows_mono (db : DB) (inputs : List ExpenseCreate) :
    ∀ r ∈ db.rows, r ∈ (createMany db inputs).2.rows := by
  induction inputs generalizing db with
  | nil => intro r hr; exact hr
  | cons x rest ih =>
    intro r hr
    rw [createMany_cons]
    exact ih _ r (by rw [add_expense_rows]; exact List.mem_append_left _ hr)

/-! ### Claim theorems -/

/-- Claim C1.  For every set of stored rows and every pair of date strings,
list_expenses returns exactly the rows whose date d satisfies
start_date ≤ d ≤ end_date under lexicographic string comparison (as a
permutation of the filtered table, so with multiplicity), sorted by date
descending with ties broken by id descending; in particular with
start_date = end_date it returns exactly the rows whose date equals that
value. -/
theorem list_expenses_range_exact_and_sorted (rows : List Expense) (s e : String) :
    (list_expenses rows s e).Perm (rows.filter (fun r => inRange s e r.date)) ∧
    (∀ r : Expense, r ∈ list_expenses rows s e ↔ r ∈ rows ∧ s ≤ r.date ∧ r.date ≤ e) ∧
    List.Sorted listLE (list_expenses rows s e) ∧
    (∀ r : Expense, r ∈ list_expenses rows s s ↔ r ∈ rows ∧ r.date = s) := by
  refine ⟨list_expenses_perm rows s e, fun r => mem_list_expenses, list_expenses_sorted rows s e,
    fun r => ?_⟩
  rw [mem_list_expenses, and_congr_right_iff]
  intro _
  constructor
  · exact fun ⟨h1, h2⟩ => le_antisymm h2 h1
  · exact fun h => ⟨le_of_eq h.symm, le_of_eq h⟩

/-- Claim C2.  For every set of stored rows and every date range, get_summary
has one entry per distinct category with at least one row in the inclusive
range, whose total is the sum of amount over exactly those rows; entries are
ordered by total descending; no entry appears for a category with zero
matching rows; and the cited example (amounts 10 and 15.5 in category Food)
yields the single entry with total 25.5. -/
theorem get_summary_groups_and_totals (rows : List Expense) (s e : String) :
    (∀ (c : String) (t : ℚ), SummaryEntry.mk c t ∈ get_summary rows s e ↔
       ((∃ r, r ∈ rows ∧ (s ≤ r.date ∧ r.date ≤ e) ∧ r.category = c) ∧
         t = catTotal (rows.filter (fun r => inRange s e r.date)) c)) ∧
    ((get_summary rows s e).map (·.category)).Nodup ∧
    List.Sorted totLE (get_summary rows s e) ∧
    get_summary
        [⟨1, "2024-05-01", 10, "Food", "", ""⟩, ⟨2, "2024-05-02", (31 : ℚ)/2, "Food", "", ""⟩]
        "2024-05-01" "2024-05-31"
      = [⟨"Food", (51 : ℚ)/2⟩] := by
  refine ⟨fun c t => mem_get_summary, get_summary_categories_nodup rows s e,
    get_summary_sorted rows s e, ?_⟩
  simp only [get_summary, catTotal]
  norm_num [inRange, List.filter, List.dedup, List.insertionSort, List.orderedInsert]

/-- Claim C8.  The sum of the per-category totals returned by get_summary
equals the sum of the amounts of the rows returned by list_expenses over the
same range: the summary partitions the listed rows by category, so the total
period spending shown by the client equals the total of the listed
expenses. -/
theorem summary_total_eq_listed_total (rows : List Expense) (s e : String) :
    ((get_summary rows s e).map (·.total)).sum
      = ((list_expenses rows s e).map (·.amount)).sum := by
  set F := rows.filter (fun r => inRange s e r.date) with hF
  have hL : ((list_expenses rows s e).map (·.amount)).sum = (F.map (·.amount)).sum :=
    ((list_expenses_perm rows s e).map (·.amount)).sum_eq
  have hS : ((get_summary rows s e).map (·.total)).sum
      = (((F.map (·.category)).dedup).map (fun c => catTotal F c)).sum := by
    rw [get_summary_eq]
    have hp := ((List.perm_insertionSort totLE
      (((F.map (·.category)).dedup).map
        (fun c => SummaryEntry.mk c (catTotal F c)))).map (·.total)).sum_eq
    rw [hp, List.map_map]
    rfl
  rw [hS, hL]
  exact sum_catTotal_eq _ F (List.nodup_dedup _)
    (fun r hr => List.mem_dedup.mpr (List.mem_map.mpr ⟨r, hr, rfl⟩))

/-- Claim C3.  delete_expense removes the row with the given id and reports
success exactly when such a row exists, and yields a not-found error when no
row matches; after a successful delete the id appears in no listing and a
second delete of the same id yields not-found. -/
theorem delete_expense_found_and_idempotent (rows : List Expense) (eid : Nat) :
    ((delete_expense rows eid).isSome = true ↔ ∃ r, r ∈ rows ∧ r.id = eid) ∧
    (∀ rows', delete_expense rows eid = some rows' →
      (∀ s e r, r ∈ list_expenses rows' s e → r.id ≠ eid) ∧
        delete_expense rows' eid = none) := by
  refine ⟨delete_expense_isSome_iff, fun rows' h => ?_⟩
  have hr' := delete_expense_some_eq h
  have hmem : ∀ r ∈ rows', r.id ≠ eid := by
    intro r hr
    rw [hr'] at hr
    simpa using (List.mem_filter.mp hr).2
  exact ⟨fun s e r hrl => hmem r (mem_list_expenses.mp hrl).1,
    delete_expense_eq_none_iff.mpr hmem⟩

/-- Witness for claim C3: deleting id 1 from the one-row table succeeds, after
which no listing contains id 1 and a second delete yields not-found. -/
theorem delete_expense_found_and_idempotent_witness :
    (∀ s e r, r ∈ list_expenses [] s e → r.id ≠ 1) ∧
      delete_expense [] 1 = none :=
  (delete_expense_found_and_idempotent [sampleRow] 1).2 [] (by decide)

/-- Claim C9.  When the table's ids are distinct (primary key), a successful
delete removes exactly the row with the given id (the length drops by one and
every other row is kept identically), a not-found delete commits an unchanged
table, and a create appends exactly one row, keeping all existing rows. -/
theorem delete_and_create_frame (rows : List Expense) (eid : Nat)
    (hnd : (rows.map (·.id)).Nodup) :
    (∀ rows', delete_expense rows eid = some rows' →
       rows.length = rows'.length + 1 ∧
       (∀ r : Expense, r ∈ rows' ↔ r ∈ rows ∧ r.id ≠ eid)) ∧
    (delete_expense rows eid = none →
       rows.filter (fun r => decide (r.id ≠ eid)) = rows) ∧
    (∀ (db : DB) (i : ExpenseCreate),
       (add_expense db i).2.rows = db.rows ++ [(add_expense db i).1]) := by
  refine ⟨fun rows' h => ?_, fun h => ?_, fun db i => rfl⟩
  · have hr' := delete_expense_some_eq h
    have hex : ∃ r, r ∈ rows ∧ r.id = eid :=
      delete_expense_isSome_iff.mp (by rw [h]; rfl)
    have hsplit :=
      List.length_eq_length_filter_add (l := rows) (fun r : Expense => decide (r.id = eid))
    have hone := length_filter_id_eq_one hnd hex
    have hfun : (fun a : Expense => !decide (a.id = eid))
        = (fun r : Expense => decide (r.id ≠ eid)) := by
      funext a
      simp [decide_not]
    constructor
    · rw [hr', ← hfun]
      omega
    · intro r
      rw [hr', List.mem_filter]
      simp
  · apply List.filter_eq_self.mpr
    intro r hr
    simpa using delete_expense_eq_none_iff.mp h r hr

/-- Witness for claim C9: deleting id 1 from the one-row table with distinct
ids removes exactly that row; create appends exactly one row. -/
theorem delete_and_create_frame_witness :
    ([sampleRow].length = ([] : List Expense).length + 1 ∧
      (∀ r : Expense, r ∈ ([] : List Expense) ↔ r ∈ [sampleRow] ∧ r.id ≠ 1)) ∧
    (∀ (db : DB) (i : ExpenseCreate),
       (add_expense db i).2.rows = db.rows ++ [(add_expense db i).1]) :=
  ⟨(delete_and_create_frame [sampleRow] 1 (by decide)).1 [] (by decide),
   (delete_and_create_frame [sampleRow] 1 (by decide)).2.2⟩

/-- Claim C4.  A record created by add_expense, when immediately listed over
any range containing the submitted date, appears in the listing with date,
amount, category, subcategory and note equal to the submitted values, the
storage-assigned id being the only added field. -/
theorem create_then_list_roundtrip (db : DB) (i : ExpenseCreate) (s e : String)
    (h1 : s ≤ i.date) (h2 : i.date ≤ e) :
    (add_expense db i).1 ∈ list_expenses (add_expense db i).2.rows s e ∧
    (add_expense db i).1.date = i.date ∧
    (add_expense db i).1.amount = i.amount ∧
    (add_expense db i).1.category = i.category ∧
    (add_expense db i).1.subcategory = i.subcategory ∧
    (add_expense db i).1.note = i.note ∧
    (add_expense db i).1.id = db.nextId := by
  refine ⟨?_, rfl, rfl, rfl, rfl, rfl, rfl⟩
  rw [mem_list_expenses]
  exact ⟨List.mem_append_right _ (List.mem_singleton.mpr rfl), h1, h2⟩

/-- Witness for claim C4: creating the sample record in the empty database
and listing the single day returns it with all submitted fields intact. -/
theorem create_then_list_roundtrip_witness :
    (add_expense sampleDB sampleInput).1
        ∈ list_expenses (add_expense sampleDB sampleInput).2.rows "2024-05-01" "2024-05-01" ∧
    (add_expense sampleDB sampleInput).1.date = sampleInput.date ∧
    (add_expense sampleDB sampleInput).1.amount = sampleInput.amount ∧
    (add_expense sampleDB sampleInput).1.category = sampleInput.category ∧
    (add_expense sampleDB sampleInput).1.subcategory = sampleInput.subcategory ∧
    (add_expense sampleDB sampleInput).1.note = sampleInput.note ∧
    (add_expense sampleDB sampleInput).1.id = sampleDB.nextId :=
  create_then_list_roundtrip sampleDB sampleInput "2024-05-01" "2024-05-01"
    (by decide) (by decide)

/-- Claim C5.  Across any sequence of successful creates the assigned ids are
pairwise distinct and strictly increasing in creation order (Pairwise of the
strict order on the returned id list), and rows already stored are carried
through every create unchanged, so an id never changes after creation. -/
theorem create_ids_unique_increasing (db : DB) (inputs : List ExpenseCreate) :
    ((createMany db inputs).1).Pairwise (· < ·) ∧
    (∀ r ∈ db.rows, r ∈ (createMany db inputs).2.rows) :=
  ⟨createMany_pairwise db inputs, createMany_rows_mono db inputs⟩

/-- Witness for claim C5: two creates after the sample row get strictly
increasing fresh ids and the sample row is still stored afterwards. -/
theorem create_ids_unique_increasing_witness :
    ((createMany ⟨2, [sampleRow]⟩ [sampleInput, sampleZero]).1).Pairwise (· < ·) ∧
      sampleRow ∈ (createMany ⟨2, [sampleRow]⟩ [sampleInput, sampleZero]).2.rows :=
  ⟨(create_ids_unique_increasing ⟨2, [sampleRow]⟩ [sampleInput, sampleZero]).1,
   (create_ids_unique_increasing ⟨2, [sampleRow]⟩ [sampleInput, sampleZero]).2
     sampleRow (by decide)⟩

/-- Claim C6.  The entry form of the dashboard rejects a non-positive amount
locally, warning and sending no create request, while the server's create
operation accepts any submission unchanged, storing the row without
validating amount sign, date format or category (called directly with
amount 0 it accepts and stores it). -/
theorem client_rejects_server_accepts (d c sc n : String) (a : ℚ) (db : DB)
    (i : ExpenseCreate) (ha : a ≤ 0) :
    entry_form_submit d a c sc n = SubmitAction.warn ∧
    ((add_expense db i).1 ∈ (add_expense db i).2.rows ∧
      (add_expense db i).1.amount = i.amount ∧
      (add_expense db i).1.date = i.date ∧
      (add_expense db i).1.category = i.category) := by
  refine ⟨?_, List.mem_append_right _ (List.mem_singleton.mpr rfl), rfl, rfl, rfl⟩
  rw [entry_form_submit, if_neg (not_lt.mpr ha)]

/-- Witness for claim C6: amount 0 is warned about and not submitted by the
client, while the server stores a direct request with amount 0. -/
theorem client_rejects_server_accepts_witness :
    entry_form_submit "2024-05-01" 0 "Food" "" "" = SubmitAction.warn ∧
    ((add_expense sampleDB sampleZero).1 ∈ (add_expense sampleDB sampleZero).2.rows ∧
      (add_expense sampleDB sampleZero).1.amount = sampleZero.amount ∧
      (add_expense sampleDB sampleZero).1.date = sampleZero.date ∧
      (add_expense sampleDB sampleZero).1.category = sampleZero.category) :=
  client_rejects_server_accepts "2024-05-01" "Food" "" "" 0 sampleDB sampleZero le_rfl

/-- Counterexample to claim C7: the claim says every client operation
degrades to a visible error and a safe fallback on any connectivity failure,
but the listing helper has no try/except, so a connection exception escapes
it unhandled (Except.error models the propagated exception). -/
theorem get_expenses_api_raises_on_exn :
    get_expenses_api NetResult.exn = Except.error () :=
  rfl

/-- Claim C7 as amended.  Only the category helper catches connection
failures, showing an error message and falling back to the single placeholder
list; the four other helpers collapse any non-success HTTP response into a
safe fallback value (empty list for list and summary, a failure indication
for add and delete) but propagate a connection exception unhandled. -/
theorem client_failure_handling (s : Nat) (b : List String) (bs : List Expense)
    (bsum : List SummaryEntry) (u : Unit) (hs : s ≠ 200) :
    get_categories_client NetResult.exn = (["Others"], true) ∧
    get_categories_client (NetResult.resp 200 b) = (b, false) ∧
    get_categories_client (NetResult.resp s b) = (["Others"], false) ∧
    get_expenses_api (NetResult.resp s bs) = Except.ok [] ∧
    get_expenses_api (NetResult.resp 200 bs) = Except.ok bs ∧
    get_summary_api (NetResult.resp s bsum) = Except.ok [] ∧
    get_summary_api (NetResult.resp 200 bsum) = Except.ok bsum ∧
    add_expense_api (NetResult.resp s u) = Except.ok false ∧
    add_expense_api (NetResult.resp 200 u) = Except.ok true ∧
    delete_expense_api (NetResult.resp s u) = Except.ok false ∧
    delete_expense_api (NetResult.resp 200 u) = Except.ok true ∧
    add_expense_api NetResult.exn = Except.error () ∧
    get_expenses_api NetResult.exn = Except.error () ∧
    get_summary_api NetResult.exn = Except.error () ∧
    delete_expense_api NetResult.exn = Except.error () := by
  refine ⟨rfl, by simp [get_categories_client], by simp [get_categories_client, hs],
    by simp [get_expenses_api, hs], by simp [get_expenses_api],
    by simp [get_summary_api, hs], by simp [get_summary_api],
    by simp [add_expense_api, hs], by simp [add_expense_api],
    by simp [delete_expense_api, hs], by simp [delete_expense_api],
    rfl, rfl, rfl, rfl⟩

/-- Witness for the amended claim C7 at status 404 with concrete bodies. -/
theorem client_failure_handling_witness :
    get_categories_client NetResult.exn = (["Others"], true) ∧
    get_categories_client (NetResult.resp 200 ["Food"]) = (["Food"], false) ∧
    get_categories_client (NetResult.resp 404 ["Food"]) = (["Others"], false) ∧
    get_expenses_api (NetResult.resp 404 [sampleRow]) = Except.ok [] ∧
    get_expenses_api (NetResult.resp 200 [sampleRow]) = Except.ok [sampleRow] ∧
    get_summary_api (NetResult.resp 404 []) = Except.ok [] ∧
    get_summary_api (NetResult.resp 200 []) = Except.ok [] ∧
    add_expense_api (NetResult.resp 404 ()) = Except.ok false ∧
    add_expense_api (NetResult.resp 200 ()) = Except.ok true ∧
    delete_expense_api (NetResult.resp 404 ()) = Except.ok false ∧
    delete_expense_api (NetResult.resp 200 ()) = Except.ok true ∧
    add_expense_api NetResult.exn = Except.error () ∧
    get_expenses_api NetResult.exn = Except.error () ∧
    get_summary_api NetResult.exn = Except.error () ∧
    delete_expense_api NetResult.exn = Except.error () :=
  client_failure_handling 404 ["Food"] [sampleRow] [] () (by decide)

/-- Claim C10.  When start_date is lexicographically greater than end_date,
the inclusive range is empty: list_expenses returns the empty list and
get_summary returns the empty list; the inverted range is not swapped. -/
theorem inverted_range_empty (rows : List Expense) (s e : String) (h : e < s) :
    list_expenses rows s e = [] ∧ get_summary rows s e = [] := by
  have hfil : rows.filter (fun r => inRange s e r.date) = [] := by
    apply List.filter_eq_nil_iff.mpr
    intro r _ hIn
    rcases inRange_iff.mp hIn with ⟨h1, h2⟩
    exact absurd (le_trans h1 h2) (not_le.mpr h)
  constructor
  · rw [list_expenses, hfil]
    rfl
  · rw [get_summary_eq, hfil]
    rfl

/-- Witness for claim C10: a concrete inverted range returns no rows and no
summary entries. -/
theorem inverted_range_empty_witness :
    list_expenses [sampleRow] "2024-02-01" "2024-01-01" = [] ∧
      get_summary [sampleRow] "2024-02-01" "2024-01-01" = [] :=
  inverted_range_empty [sampleRow] "2024-02-01" "2024-01-01" (by decide)
